import Mathlib

/-!
Shallow embedding of the attendance/billing core of the class-attendance
manager (React + Supabase client), covering:

* `src/components/InvoiceGenerator.tsx` — `firstDayISO`, `nextMonthISO`,
  `computeSummary` (invoice calculator);
* `src/components/ClassManager.tsx` — `loadStudentsForClass` (enrollment
  resolver; the students-loading effect in `InvoiceGenerator.tsx` issues the
  same queries);
* the payment tracker component — `remainingDue`, `processPayment`,
  `doUndoLastPayment`, `printReceipt` (amount-due line), invoice-list render;
* `src/lib/api.ts` — `attendance.save` (schedule find-or-create and
  attendance upsert).

Conventions of the embedding:

* Monetary values and rates are `ℚ`; a JavaScript value that can be `NaN`
  (e.g. the result of `parseFloat`) is `Option ℚ` with `none` for a
  non-finite result, so `Number.isFinite` guards become `Option` matches.
* Database rows are records in lists; a Supabase query is a `filter` /
  sort over those lists.  `maybeSingle()` errors when more than one row
  matches, which the embedding models explicitly.
* ISO dates are strings compared lexicographically (`strLtB`), which agrees
  with date order on zero-padded `YYYY-MM-DD` strings.
* `new Date(y, m, 1)` is local time while `toISOString()` is UTC; the host
  timezone is therefore an explicit input `tz` (minutes east of UTC,
  `-1440 < tz < 1440` for real zones) wherever that conversion happens.
-/

namespace ClassSystem

/-- Invoice status labels (the `status` column of `invoices`). -/
inductive Status where
  | draft
  | sent
  | paid
  | overdue
  | cancelled
deriving DecidableEq, Repr

/-- A `classes` row as selected by the components:
`id, class_name, hourly_rate` (nullable). -/
structure ClassRow where
  id : String
  class_name : String
  hourly_rate : Option ℚ
deriving DecidableEq, Repr

/-- A `students` row as used by the enrollment resolver. -/
structure StudentRow where
  id : String
  student_name : String
  parent_email : Option String
deriving DecidableEq, Repr

/-- A `lesson_schedules` row: planned session for (class, student, date),
with the nullable per-lesson `hourly_rate` override. -/
structure ScheduleRow where
  id : ℕ
  class_id : String
  student_id : String
  lesson_date : String
  hourly_rate : Option ℚ
deriving DecidableEq, Repr

/-- An `attendance_records` row: one outcome per schedule row. -/
structure AttRow where
  id : ℕ
  lesson_schedule_id : ℕ
  student_id : String
  attended : Bool
  notes : Option String
  recorded_at : String
  recorded_by : String
deriving DecidableEq, Repr

/-- An `invoices` row, with the fields the payment tracker selects. -/
structure InvoiceRow where
  id : String
  invoice_number : String
  student_id : String
  student_name : String
  total_amount : ℚ
  status : Status
  due_date : String
deriving DecidableEq, Repr

/-- A `payments` row.  `payment_date` and `created_at` are ISO strings
(the columns the undo query orders by). -/
structure PaymentRow where
  id : String
  invoice_id : String
  student_id : String
  amount : ℚ
  payment_method : String
  payment_reference : String
  notes : Option String
  payment_date : String
  created_at : String
deriving DecidableEq, Repr

/-- The remote relational store: one list per table, plus a counter
supplying fresh generated ids for inserts into the serial-id tables. -/
structure Store where
  classes : List ClassRow
  students : List StudentRow
  lessonSchedules : List ScheduleRow
  attendanceRecords : List AttRow
  invoices : List InvoiceRow
  payments : List PaymentRow
  nextId : ℕ
deriving DecidableEq, Repr

/-! ### String comparison and calendar helpers -/

/-- Lexicographic order on character lists by code point; `strLtB` below is
how the store compares ISO date strings (equivalent to date order on
zero-padded `YYYY-MM-DD`). -/
def chLt : List Char → List Char → Bool
  | [], [] => false
  | [], _ :: _ => true
  | _ :: _, [] => false
  | c :: cs, d :: ds =>
    if c.toNat < d.toNat then true
    else if d.toNat < c.toNat then false
    else chLt cs ds

/-- `a < b` on strings, lexicographically by code point. -/
def strLtB (a b : String) : Bool := chLt a.toList b.toList

/-- Zero-pad a number below 100 to two digits (month/day of ISO dates). -/
def pad2 (n : ℕ) : String :=
  if n < 10 then "0" ++ toString n else toString n

/-- `YYYY-MM` month key as the `<input type="month">` produces it. -/
def ymString (y m : ℕ) : String := toString y ++ "-" ++ pad2 m

/-- ISO `YYYY-MM-DD` rendering of a calendar date. -/
def isoOfYMD (y m d : ℕ) : String := ymString y m ++ "-" ++ pad2 d

/-- Gregorian leap-year test. -/
def isLeap (y : ℕ) : Bool :=
  y % 4 == 0 && (y % 100 != 0 || y % 400 == 0)

/-- Days in a Gregorian month. -/
def daysInMonth (y m : ℕ) : ℕ :=
  if m == 2 then (if isLeap y then 29 else 28)
  else if m == 4 || m == 6 || m == 9 || m == 11 then 30
  else 31

/-- The calendar month after `(y, m)` (what `new Date(y, m, 1)` denotes in
local time, since the constructor's month argument is 0-indexed). -/
def nextMonth (y m : ℕ) : ℕ × ℕ :=
  if m == 12 then (y + 1, 1) else (y, m + 1)

/-- The calendar day before the first of month `(y, m)`. -/
def dayBeforeFirst (y m : ℕ) : String :=
  if m == 1 then isoOfYMD (y - 1) 12 31
  else isoOfYMD y (m - 1) (daysInMonth y (m - 1))

/-- `firstDayISO` from `InvoiceGenerator.tsx`: the string `` `${ym}-01` ``. -/
def firstDayISO (y m : ℕ) : String := ymString y m ++ "-01"

/-- `nextMonthISO` from `InvoiceGenerator.tsx`:
`new Date(y, m, 1).toISOString().slice(0, 10)`.  The constructor builds
local midnight of the first day of the next month, and `toISOString`
renders that instant in UTC, so with host timezone `tz` minutes east of
UTC (`-1440 < tz < 1440`) the rendered date is the previous calendar day
exactly when `tz > 0`. -/
def nextMonthISO (y m : ℕ) (tz : ℤ) : String :=
  let nm := nextMonth y m
  if 0 < tz then dayBeforeFirst nm.1 nm.2 else isoOfYMD nm.1 nm.2 1

/-! ### Invoice calculator (`computeSummary` in `InvoiceGenerator.tsx`) -/

/-- Stable insertion of a schedule row into a list ascending by
`lesson_date` (the `order('lesson_date')` of the schedules query). -/
def insertByDate (r : ScheduleRow) : List ScheduleRow → List ScheduleRow
  | [] => [r]
  | x :: xs =>
    if strLtB r.lesson_date x.lesson_date then r :: x :: xs
    else x :: insertByDate r xs

/-- Sort schedule rows ascending by `lesson_date`. -/
def sortByDate (l : List ScheduleRow) : List ScheduleRow :=
  l.foldr insertByDate []

/-- The schedules query of `computeSummary`: rows of `lesson_schedules`
with the selected class and student whose `lesson_date` satisfies
`gte startISO` and `lt endISO`, ordered by `lesson_date`. -/
def monthSchedules (st : Store) (cid sid startISO endISO : String) :
    List ScheduleRow :=
  sortByDate (st.lessonSchedules.filter fun s =>
    s.class_id == cid && s.student_id == sid &&
    !strLtB s.lesson_date startISO && strLtB s.lesson_date endISO)

/-- The attendance count of `computeSummary`: rows of `attendance_records`
whose `lesson_schedule_id` is among `scheduleIds` and whose `student_id`
is the selected student, filtered to `attended` and counted.  The guard
mirrors the code skipping the query when `scheduleIds` is empty. -/
def attendedCount (st : Store) (sid : String) (scheduleIds : List ℕ) : ℕ :=
  if scheduleIds.isEmpty then 0
  else ((st.attendanceRecords.filter fun a =>
    scheduleIds.contains a.lesson_schedule_id && a.student_id == sid).filter
      fun a => a.attended).length

/-- Rate precedence of `computeSummary` (manual override > per-lesson rate
> class rate > 0):

* `override` is `Number.parseFloat` of the rate input, `none` when that is
  not a finite number; the code uses it only when finite and positive;
* `perLessonRate` is `schedules.map(s => Number(s.hourly_rate)).find(n =>
  Number.isFinite(n) && n > 0)` — `Number(null) = 0`, hence `getD 0`;
* `classRate` is `Number(classes.find(...)?.hourly_rate ?? 0)`, already
  defaulted to `0` and always finite, so the final
  `Number.isFinite(classRate) ? classRate : 0` is `classRate` itself. -/
def resolveUnit (override : Option ℚ) (schedules : List ScheduleRow)
    (classRate : ℚ) : ℚ :=
  let perLessonRate :=
    (schedules.map fun s => s.hourly_rate.getD 0).find? fun n => decide (0 < n)
  match override with
  | some o => if 0 < o then o else perLessonRate.getD classRate
  | none => perLessonRate.getD classRate

/-- The class rate as `computeSummary` computes it:
`Number(classes.find(c => c.id === selectedClassId)?.hourly_rate ?? 0)`. -/
def classRateOf (classes : List ClassRow) (cid : String) : ℚ :=
  ((classes.find? fun c => c.id == cid).bind (·.hourly_rate)).getD 0

/-- The summary state set by `computeSummary`. -/
structure Summary where
  attended : ℕ
  total : ℕ
  unit : ℚ
  subtotal : ℚ
deriving DecidableEq, Repr

/-- `computeSummary` from `InvoiceGenerator.tsx` for a selected class
`cid`, student `sid` and month `(y, m)`; `override` is the parsed manual
rate input and `tz` the host timezone offset (minutes east of UTC) that
`nextMonthISO` depends on.  `subtotal = attended * (unit || 0)`; since
`unit` is a rational (never `NaN`), `unit || 0` is `unit`. -/
def computeSummary (st : Store) (classes : List ClassRow) (cid sid : String)
    (y m : ℕ) (override : Option ℚ) (tz : ℤ) : Summary :=
  let startISO := firstDayISO y m
  let endISO := nextMonthISO y m tz
  let schedules := monthSchedules st cid sid startISO endISO
  let scheduleIds := schedules.map (·.id)
  let total := scheduleIds.length
  let attended := attendedCount st sid scheduleIds
  let unit := resolveUnit override schedules (classRateOf classes cid)
  { attended := attended, total := total, unit := unit,
    subtotal := (attended : ℚ) * unit }

/-! ### Spec-side definitions for the calculator claims

These follow the words of the specification/claims, to be compared with
the definitions above translated from the source. -/

/-- Spec wording, C1 branch (b): "the first positive per-lesson rate found
among that student's schedule rows in the month", scanning the rows in
lesson-date order and skipping rows with no positive rate. -/
def firstPositivePerLesson (schedules : List ScheduleRow) : Option ℚ :=
  schedules.findSome? fun s =>
    s.hourly_rate.bind fun r => if 0 < r then some r else none

/-- Spec wording, C1: the unit rate resolved by precedence — (a) the manual
override if present and positive; else (b) the first positive per-lesson
rate among the month's schedule rows in lesson-date order; else (c) the
class's default hourly rate; else (d) zero. -/
def specUnitRate (override : Option ℚ) (schedules : List ScheduleRow)
    (classRate : Option ℚ) : ℚ :=
  let fallback :=
    match firstPositivePerLesson schedules with
    | some r => r
    | none =>
      match classRate with
      | some c => c
      | none => 0
  match override with
  | some o => if 0 < o then o else fallback
  | none => fallback

/-- Spec wording, C2: the count of `lesson_schedules` rows for the selected
class and student whose date falls within the half-open interval
[first day of the month, first day of the next month). -/
def specMonthCount (st : Store) (cid sid : String) (y m : ℕ) : ℕ :=
  (st.lessonSchedules.filter fun s =>
    s.class_id == cid && s.student_id == sid &&
    !strLtB s.lesson_date (firstDayISO y m) &&
    strLtB s.lesson_date (isoOfYMD (nextMonth y m).1 (nextMonth y m).2 1)).length

/-! ### Theorems: invoice calculator -/

/-- The code's per-lesson-rate scan (`Number(s.hourly_rate)` then first
finite positive) finds exactly the first positive per-lesson rate of the
spec wording. -/
theorem perLesson_eq_firstPositive (l : List ScheduleRow) :
    ((l.map fun s => s.hourly_rate.getD 0).find? fun n => decide (0 < n)) =
      firstPositivePerLesson l := by
  induction l with
  | nil => rfl
  | cons s t ih =>
    simp only [List.map_cons, List.find?_cons, firstPositivePerLesson,
      List.findSome?_cons]
    cases h : s.hourly_rate with
    | none => simpa [firstPositivePerLesson] using ih
    | some r =>
      by_cases hr : 0 < r
      · simp [hr]
      · simpa [hr, firstPositivePerLesson] using ih

/-- The code's rate-precedence expression agrees with the spec wording of
the precedence for every override, schedule list and (optional) class
rate. -/
theorem resolveUnit_eq_specUnitRate (override : Option ℚ)
    (schedules : List ScheduleRow) (classRate : Option ℚ) :
    resolveUnit override schedules (classRate.getD 0) =
      specUnitRate override schedules classRate := by
  unfold resolveUnit specUnitRate
  rw [perLesson_eq_firstPositive]
  cases override with
  | none =>
    cases h : firstPositivePerLesson schedules with
    | none => cases classRate <;> simp
    | some r => simp
  | some o =>
    by_cases ho : 0 < o
    · simp [ho]
    · cases h : firstPositivePerLesson schedules with
      | none => cases classRate <;> simp [ho]
      | some r => simp [ho]

/-- C1: in every invoice-calculator run the computed subtotal is
attended × unit, and the unit rate is resolved exactly by the spec's
precedence — manual override if present and positive, else first positive
per-lesson rate among the student's schedule rows of the month in
lesson-date order, else the class's default hourly rate, else zero. -/
theorem C1_subtotal_is_attended_times_resolved_unit
    (st : Store) (classes : List ClassRow) (cid sid : String) (y m : ℕ)
    (override : Option ℚ) (tz : ℤ) :
    (computeSummary st classes cid sid y m override tz).subtotal =
      ((computeSummary st classes cid sid y m override tz).attended : ℚ) *
        specUnitRate override
          (monthSchedules st cid sid (firstDayISO y m) (nextMonthISO y m tz))
          ((classes.find? fun c => c.id == cid).bind (·.hourly_rate)) ∧
    (computeSummary st classes cid sid y m override tz).unit =
      specUnitRate override
        (monthSchedules st cid sid (firstDayISO y m) (nextMonthISO y m tz))
        ((classes.find? fun c => c.id == cid).bind (·.hourly_rate)) := by
  have h := resolveUnit_eq_specUnitRate override
    (monthSchedules st cid sid (firstDayISO y m) (nextMonthISO y m tz))
    ((classes.find? fun c => c.id == cid).bind (·.hourly_rate))
  constructor
  · simp only [computeSummary, classRateOf]
    rw [h]
  · simp only [computeSummary, classRateOf]
    rw [h]

/-- The store of the C2 failing input: a single scheduled lesson for
class `c1`, student `s1` on 2024-01-31, the last day of the selected
month 2024-01. -/
def stC2 : Store :=
  { classes := [], students := [],
    lessonSchedules := [⟨0, "c1", "s1", "2024-01-31", none⟩],
    attendanceRecords := [], invoices := [], payments := [], nextId := 1 }

/-- C2 (failing input): in a host timezone ahead of UTC (here +60 minutes)
`nextMonthISO` renders the last day of the selected month instead of the
first day of the next month — contradicting its own comment ("pass m for
next month 1st") — so `computeSummary` counts 0 scheduled lessons for
2024-01 while the interval [2024-01-01, 2024-02-01) of the claim
contains 1; with timezone offset 0 the code agrees with the claim. -/
theorem C2_total_misses_last_day_in_east_timezones :
    (computeSummary stC2 [] "c1" "s1" 2024 1 none 60).total = 0 ∧
    specMonthCount stC2 "c1" "s1" 2024 1 = 1 ∧
    nextMonthISO 2024 1 60 = "2024-01-31" ∧
    (computeSummary stC2 [] "c1" "s1" 2024 1 none 0).total =
      specMonthCount stC2 "c1" "s1" 2024 1 := by
  decide

/-! ### Enrollment resolver (`loadStudentsForClass` in `ClassManager.tsx`;
the students-loading effect of `InvoiceGenerator.tsx` issues the same
queries) -/

/-- `Array.from(new Set(list))`: deduplicate keeping the first occurrence
of each element, preserving insertion order. -/
def jsSetDedup (l : List String) : List String :=
  l.foldl (fun acc x => if x ∈ acc then acc else acc ++ [x]) []

/-- The resolver's id set: `lesson_schedules` rows of the class, projected
to `student_id` and deduplicated. -/
def enrolledStudentIds (st : Store) (classId : String) : List String :=
  jsSetDedup ((st.lessonSchedules.filter fun s =>
    s.class_id == classId).map (·.student_id))

/-- Stable insertion of a student row into a list ascending by
`student_name` (the `order('student_name')` of the students query). -/
def insertByName (r : StudentRow) : List StudentRow → List StudentRow
  | [] => [r]
  | x :: xs =>
    if strLtB r.student_name x.student_name then r :: x :: xs
    else x :: insertByName r xs

/-- Sort student rows ascending by `student_name`. -/
def sortByName (l : List StudentRow) : List StudentRow :=
  l.foldr insertByName []

/-- `loadStudentsForClass`: read the class's schedule rows, deduplicate
their student ids, and (when any exist) read the matching `students` rows
ordered by name.  Both statements are selects, so the store comes back
unchanged. -/
def loadStudentsForClass (st : Store) (classId : String) :
    Store × List StudentRow :=
  let studentIds := enrolledStudentIds st classId
  if studentIds.isEmpty then (st, [])
  else (st, sortByName (st.students.filter fun s => studentIds.contains s.id))

/-! ### Theorems: enrollment resolver -/

/-- Membership in `jsSetDedup` is membership in the underlying list. -/
theorem mem_jsSetDedup (l : List String) (x : String) :
    x ∈ jsSetDedup l ↔ x ∈ l := by
  suffices h : ∀ acc : List String,
      x ∈ l.foldl (fun acc x => if x ∈ acc then acc else acc ++ [x]) acc ↔
        x ∈ acc ∨ x ∈ l by
    simpa [jsSetDedup] using h []
  induction l with
  | nil => simp
  | cons a t ih =>
    intro acc
    by_cases ha : a ∈ acc
    · rw [List.foldl_cons, if_pos ha, ih]
      constructor
      · rintro (h | h)
        · exact Or.inl h
        · exact Or.inr (List.mem_cons_of_mem _ h)
      · rintro (h | h)
        · exact Or.inl h
        · rcases List.mem_cons.mp h with rfl | h
          · exact Or.inl ha
          · exact Or.inr h
    · rw [List.foldl_cons, if_neg ha, ih]
      constructor
      · rintro (h | h)
        · rcases List.mem_append.mp h with h | h
          · exact Or.inl h
          · simp at h
            exact Or.inr (h ▸ List.mem_cons_self a t)
        · exact Or.inr (List.mem_cons_of_mem _ h)
      · rintro (h | h)
        · exact Or.inl (List.mem_append.mpr (Or.inl h))
        · rcases List.mem_cons.mp h with rfl | h
          · exact Or.inl (by simp)
          · exact Or.inr h

/-- `jsSetDedup` produces a duplicate-free list. -/
theorem nodup_jsSetDedup (l : List String) : (jsSetDedup l).Nodup := by
  suffices h : ∀ acc : List String, acc.Nodup →
      (l.foldl (fun acc x => if x ∈ acc then acc else acc ++ [x]) acc).Nodup by
    exact h [] List.nodup_nil
  induction l with
  | nil => intro acc hacc; simpa using hacc
  | cons a t ih =>
    intro acc hacc
    by_cases ha : a ∈ acc
    · rw [List.foldl_cons, if_pos ha]; exact ih acc hacc
    · rw [List.foldl_cons, if_neg ha]
      exact ih _ (by simp [List.nodup_append, hacc, ha])

/-- C8: the resolver performs reads only (the store is unchanged), the
resolved id set is duplicate-free and contains a student id exactly when
that student has at least one `lesson_schedules` row in the class, and a
class with zero schedule rows resolves to zero enrolled students. -/
theorem C8_enrolled_iff_has_schedule_row (st : Store) (classId : String) :
    (loadStudentsForClass st classId).1 = st ∧
    (enrolledStudentIds st classId).Nodup ∧
    (∀ sid : String, sid ∈ enrolledStudentIds st classId ↔
      ∃ r ∈ st.lessonSchedules, r.class_id = classId ∧ r.student_id = sid) ∧
    ((st.lessonSchedules.filter fun s => s.class_id == classId) = [] →
      enrolledStudentIds st classId = [] ∧
      (loadStudentsForClass st classId).2 = []) := by
  refine ⟨?_, nodup_jsSetDedup _, ?_, ?_⟩
  · by_cases h : (enrolledStudentIds st classId).isEmpty <;>
      simp [loadStudentsForClass, h]
  · intro sid
    unfold enrolledStudentIds
    rw [mem_jsSetDedup]
    simp only [List.mem_map, List.mem_filter, beq_iff_eq]
    constructor
    · rintro ⟨r, ⟨hr, hc⟩, hs⟩
      exact ⟨r, hr, hc, hs⟩
    · rintro ⟨r, hr, hc, hs⟩
      exact ⟨r, ⟨hr, hc⟩, hs⟩
  · intro h
    have hid : enrolledStudentIds st classId = [] := by
      unfold enrolledStudentIds
      rw [h]
      rfl
    refine ⟨hid, ?_⟩
    unfold loadStudentsForClass
    rw [hid]
    rfl


/-! ### Payment tracker: paid sums and amount due -/

/-- One step of the `loadInvoices` accumulation:
`map[p.invoice_id] = (map[p.invoice_id] || 0) + Number(p.amount || 0)` on
a JavaScript object modelled as an insertion-ordered association list —
update the existing entry or append a new one. -/
def bumpPaid (m : List (String × ℚ)) (k : String) (v : ℚ) :
    List (String × ℚ) :=
  match m with
  | [] => [(k, v)]
  | (k1, v1) :: rest =>
    if k1 == k then (k1, v1 + v) :: rest else (k1, v1) :: bumpPaid rest k v

/-- `sumPaid[k] || 0`: the entry for `k` of the association-list object,
defaulting to `0` when absent. -/
def lookupOr0 : List (String × ℚ) → String → ℚ
  | [], _ => 0
  | e :: rest, k => if e.1 == k then e.2 else lookupOr0 rest k

/-- The `sumPaid` map built by `loadInvoices` from the payments fetched
with `.in('invoice_id', ids)` for the visible invoice ids. -/
def loadInvoicesSumPaid (st : Store) (ids : List String) :
    List (String × ℚ) :=
  (st.payments.filter fun p => ids.contains p.invoice_id).foldl
    (fun m p => bumpPaid m p.invoice_id p.amount) []

/-- `remainingDue` from the payment tracker:
`Math.max(0, inv.total_amount - (sumPaid[inv.id] || 0))`. -/
def remainingDue (sumPaid : List (String × ℚ)) (inv : InvoiceRow) : ℚ :=
  max 0 (inv.total_amount - lookupOr0 sumPaid inv.id)

/-- The amount-due line of `printReceipt`:
`paid = sumPaid[inv.id] || 0; due = Math.max(0, inv.total_amount - paid)`. -/
def printReceiptDue (sumPaid : List (String × ℚ)) (inv : InvoiceRow) : ℚ :=
  max 0 (inv.total_amount - lookupOr0 sumPaid inv.id)

/-- The due amount of the invoice-list render:
`paid = sumPaid[inv.id] || 0; due = Math.max(0, inv.total_amount - paid)`. -/
def renderDue (sumPaid : List (String × ℚ)) (inv : InvoiceRow) : ℚ :=
  max 0 (inv.total_amount - lookupOr0 sumPaid inv.id)

/-- Spec wording, C9: the sum of the invoice's recorded payment amounts. -/
def paymentSumFor (st : Store) (invId : String) : ℚ :=
  ((st.payments.filter fun p => p.invoice_id == invId).map (·.amount)).sum

/-! ### Theorems: amount due -/

/-- Looking up `k1` after bumping `k` adds `v` exactly when `k1 = k`. -/
theorem lookupOr0_bumpPaid (m : List (String × ℚ)) (k k1 : String) (v : ℚ) :
    lookupOr0 (bumpPaid m k v) k1 =
      lookupOr0 m k1 + (if k1 = k then v else 0) := by
  induction m with
  | nil =>
    by_cases h : k1 = k
    · subst h; simp [bumpPaid, lookupOr0]
    · have hb : (k == k1) = false := beq_eq_false_iff_ne.mpr fun hh => h hh.symm
      simp [bumpPaid, lookupOr0, hb, h]
  | cons e rest ih =>
    obtain ⟨k2, v2⟩ := e
    by_cases h2 : k2 = k
    · subst h2
      by_cases h1 : k2 = k1
      · subst h1; simp [bumpPaid, lookupOr0]
      · have hb : (k2 == k1) = false := beq_eq_false_iff_ne.mpr h1
        have h1s : ¬(k1 = k2) := fun hh => h1 hh.symm
        simp [bumpPaid, lookupOr0, hb, h1s]
    · have hb2 : (k2 == k) = false := beq_eq_false_iff_ne.mpr h2
      by_cases h1 : k2 = k1
      · subst h1
        simp [bumpPaid, lookupOr0, hb2, h2]
      · have hb1 : (k2 == k1) = false := beq_eq_false_iff_ne.mpr h1
        simp [bumpPaid, lookupOr0, hb2, hb1, ih]

/-- Folding the `loadInvoices` accumulation over a payment list adds, for
each key, the sum of the amounts carried by that key. -/
theorem lookupOr0_foldl_bumpPaid (pays : List PaymentRow) (k : String) :
    ∀ m : List (String × ℚ),
      lookupOr0 (pays.foldl (fun m p => bumpPaid m p.invoice_id p.amount) m) k =
        lookupOr0 m k +
          ((pays.filter fun p => p.invoice_id == k).map (·.amount)).sum := by
  induction pays with
  | nil => intro m; simp
  | cons p rest ih =>
    intro m
    rw [List.foldl_cons, ih, lookupOr0_bumpPaid]
    by_cases h : p.invoice_id = k
    · rw [if_pos h.symm, List.filter_cons, if_pos (by simp [h]),
        List.map_cons, List.sum_cons]
      ring
    · rw [if_neg fun hh => h hh.symm, List.filter_cons,
        if_neg (by simp [h]), add_zero]

/-- Filtering the fetched payments (restricted to the visible invoice
ids) down to one visible invoice id gives the same rows as filtering all
payments to that id. -/
theorem filter_fetched_payments (pays : List PaymentRow) (ids : List String)
    (k : String) (h : k ∈ ids) :
    ((pays.filter fun p => ids.contains p.invoice_id).filter
        fun p => p.invoice_id == k) =
      pays.filter fun p => p.invoice_id == k := by
  induction pays with
  | nil => rfl
  | cons p rest ih =>
    simp only [List.filter_cons]
    by_cases hc : (ids.contains p.invoice_id) = true
    · rw [if_pos hc, List.filter_cons]
      by_cases hp : (p.invoice_id == k) = true
      · rw [if_pos hp, if_pos hp, ih]
      · rw [if_neg hp, if_neg hp, ih]
    · have hp : ¬((p.invoice_id == k) = true) := by
        intro hpk
        apply hc
        have hpe : p.invoice_id = k := by simpa using hpk
        rw [hpe]
        exact List.elem_eq_true_of_mem h
      rw [if_neg hc, if_neg hp, ih]

/-- C9: for every invoice among the loaded ids, the amount due computed
by `remainingDue`, shown by the invoice-list render and printed on the
receipt equals max(0, total_amount − sum of the invoice's recorded
payment amounts), and is never negative even when payments exceed the
total. -/
theorem C9_due_is_clamped_total_minus_paid (st : Store) (ids : List String)
    (inv : InvoiceRow) (h : inv.id ∈ ids) :
    remainingDue (loadInvoicesSumPaid st ids) inv =
      max 0 (inv.total_amount - paymentSumFor st inv.id) ∧
    printReceiptDue (loadInvoicesSumPaid st ids) inv =
      remainingDue (loadInvoicesSumPaid st ids) inv ∧
    renderDue (loadInvoicesSumPaid st ids) inv =
      remainingDue (loadInvoicesSumPaid st ids) inv ∧
    0 ≤ remainingDue (loadInvoicesSumPaid st ids) inv := by
  have hsum : lookupOr0 (loadInvoicesSumPaid st ids) inv.id =
      paymentSumFor st inv.id := by
    unfold loadInvoicesSumPaid paymentSumFor
    rw [lookupOr0_foldl_bumpPaid, filter_fetched_payments st.payments ids inv.id h]
    simp [lookupOr0]
  refine ⟨?_, rfl, rfl, le_max_left 0 _⟩
  unfold remainingDue
  rw [hsum]

/-- Concrete invoice for the C9 witness: total 100. -/
def invC9 : InvoiceRow :=
  ⟨"i1", "INV-2024-0001", "s1", "Ann", 100, Status.sent, "2024-02-01"⟩

/-- Concrete store for the C9 witness: payments 60 and 70 on invoice
`i1`, exceeding its total of 100. -/
def stC9 : Store :=
  { classes := [], students := [], lessonSchedules := [],
    attendanceRecords := [], invoices := [invC9],
    payments := [⟨"p1", "i1", "s1", 60, "cash", "R1", none, "2024-01-02", "t1"⟩,
      ⟨"p2", "i1", "s1", 70, "cash", "R2", none, "2024-01-03", "t2"⟩],
    nextId := 0 }

/-- Witness for C9 at a concrete store: the invoice is overpaid
(60 + 70 against a total of 100) and the displayed due amount clamps at
zero. -/
theorem C9_witness :
    invC9.id ∈ ["i1"] ∧
    (remainingDue (loadInvoicesSumPaid stC9 ["i1"]) invC9 =
        max 0 (invC9.total_amount - paymentSumFor stC9 invC9.id) ∧
      printReceiptDue (loadInvoicesSumPaid stC9 ["i1"]) invC9 =
        remainingDue (loadInvoicesSumPaid stC9 ["i1"]) invC9 ∧
      renderDue (loadInvoicesSumPaid stC9 ["i1"]) invC9 =
        remainingDue (loadInvoicesSumPaid stC9 ["i1"]) invC9 ∧
      0 ≤ remainingDue (loadInvoicesSumPaid stC9 ["i1"]) invC9) :=
  ⟨by decide, C9_due_is_clamped_total_minus_paid stC9 ["i1"] invC9 (by decide)⟩

/-! ### Attendance saving (`attendance.save` in `src/lib/api.ts`) -/

/-- The ECMAScript whitespace class: tab, line feed, vertical tab,
form feed, carriage return, space, no-break space, ogham space mark, the
en-quad..hair-space range U+2000 to U+200A, line and paragraph
separators, narrow no-break space, medium mathematical space,
ideographic space and the byte-order mark U+FEFF. -/
def isJsSpace (c : Char) : Bool :=
  c == '\t' || c == '\n' || c.val == 11 || c.val == 12 || c == '\r' ||
  c == ' ' || c.val == 0xA0 || c.val == 0x1680 ||
  (0x2000 ≤ c.val && c.val ≤ 0x200A) || c.val == 0x2028 || c.val == 0x2029 ||
  c.val == 0x202F || c.val == 0x205F || c.val == 0x3000 || c.val == 0xFEFF

/-- The regex `^\d{4}-\d{2}-\d{2}$` (also the test inside `toISO`). -/
def isIsoDateKey (k : String) : Bool :=
  match k.toList with
  | [a, b, c, d, e, f, g, h, i, j] =>
    a.isDigit && b.isDigit && c.isDigit && d.isDigit && e == '-' &&
    f.isDigit && g.isDigit && h == '-' && i.isDigit && j.isDigit
  | _ => false

/-- The regex alternative `^[A-Za-z]{3}\s\d{2}$` ("Mon DD" keys);
`Char.isAlpha` is exactly `[A-Za-z]` and `Char.isDigit` exactly `[0-9]`. -/
def isMonDDKey (k : String) : Bool :=
  match k.toList with
  | [a, b, c, w, d, e] =>
    a.isAlpha && b.isAlpha && c.isAlpha && isJsSpace w &&
    d.isDigit && e.isDigit
  | _ => false

/-- The key filter of `attendance.save` (line
`if (!/^(?:\d{4}-\d{2}-\d{2}|[A-Za-z]{3}\s\d{2})$/.test(k)) continue;`):
only keys passing this test are treated as attendance-date columns. -/
def dateKeyTest (k : String) : Bool := isIsoDateKey k || isMonDDKey k

/-- Spec wording, C10: the claimed key pattern — `YYYY-MM-DD`, or three
letters, a space (`' '`, as the claim reads) and two digits. -/
def claimDateKeyPattern (k : String) : Bool :=
  isIsoDateKey k ||
    match k.toList with
    | [a, b, c, w, d, e] =>
      a.isAlpha && b.isAlpha && c.isAlpha && w == ' ' &&
      d.isDigit && e.isDigit
    | _ => false

/-- `toISO` from `api.ts`: an already-ISO string passes through, anything
else goes to `new Date(dateLike)` whose host-defined parse (then
`toISOString().slice(0, 10)`) is the `looseParse` parameter; `none`
models an invalid date, on which `toISO` throws. -/
def toISO (looseParse : String → Option String) (k : String) :
    Option String :=
  if isIsoDateKey k then some k else looseParse k

/-- The schedule find-or-create step of `attendance.save`: select
`lesson_schedules` by exact `(class_id, student_id, lesson_date)` match
with `maybeSingle()` (error when several rows match), and insert a fresh
row only when none was found.  Returns the schedule id to attach
attendance to. -/
def ensureSchedule (st : Store) (cid sid dt : String) :
    Except String (Store × ℕ) :=
  match st.lessonSchedules.filter fun r =>
      r.class_id == cid && r.student_id == sid && r.lesson_date == dt with
  | [] =>
    Except.ok
      ({ st with
          lessonSchedules :=
            st.lessonSchedules ++ [⟨st.nextId, cid, sid, dt, none⟩],
          nextId := st.nextId + 1 }, st.nextId)
  | [r] => Except.ok (st, r.id)
  | _ => Except.error "JSON object requested, multiple rows returned"

/-- The attendance upsert step of `attendance.save`: select
`attendance_records` by `(lesson_schedule_id, student_id)` with
`maybeSingle()` (error when several rows match); update the found row's
`attended`/`recorded_at`/`recorded_by` by id, else insert a new row. -/
def upsertAttendance (st : Store) (schedId : ℕ) (sid : String)
    (att : Bool) (teacher now : String) : Except String Store :=
  match st.attendanceRecords.filter fun a =>
      a.lesson_schedule_id == schedId && a.student_id == sid with
  | [] =>
    Except.ok
      { st with
          attendanceRecords :=
            st.attendanceRecords ++
              [⟨st.nextId, schedId, sid, att, none, now, teacher⟩],
          nextId := st.nextId + 1 }
  | [a] =>
    Except.ok
      { st with
          attendanceRecords := st.attendanceRecords.map fun b =>
            if b.id == a.id then
              { b with
                  attended := att
                  recorded_at := now
                  recorded_by := teacher }
            else b }
  | _ => Except.error "JSON object requested, multiple rows returned"

/-- One student record of the `attendance.save` payload: `student_id`
plus the remaining own keys in insertion order (date-like keys carry the
truthiness `!!v` of their value; keys failing `dateKeyTest`, such as
`student_name`, are skipped before their value is ever read). -/
structure AttendanceRec where
  student_id : String
  entries : List (String × Bool)
deriving DecidableEq, Repr

/-- The inner key loop of `attendance.save` for one student record:
skip keys failing `dateKeyTest`; for the rest normalize the date, run the
schedule find-or-create and the attendance upsert, and count the pair in
`updated`.  Any failure aborts the whole save. -/
def processEntries (teacher now : String)
    (looseParse : String → Option String) (cid sid : String) :
    Store → List (String × Bool) → Except String (Store × ℕ)
  | st, [] => Except.ok (st, 0)
  | st, (k, v) :: rest =>
    if dateKeyTest k then
      match toISO looseParse k with
      | none => Except.error ("Bad date: " ++ k)
      | some dt =>
        match ensureSchedule st cid sid dt with
        | Except.error e => Except.error e
        | Except.ok (st1, schedId) =>
          match upsertAttendance st1 schedId sid v teacher now with
          | Except.error e => Except.error e
          | Except.ok st2 =>
            match processEntries teacher now looseParse cid sid st2 rest with
            | Except.error e => Except.error e
            | Except.ok (st3, n) => Except.ok (st3, n + 1)
    else processEntries teacher now looseParse cid sid st rest

/-- The record loop of `attendance.save`, accumulating `updated`. -/
def processRecs (teacher now : String)
    (looseParse : String → Option String) (cid : String) :
    Store → List AttendanceRec → Except String (Store × ℕ)
  | st, [] => Except.ok (st, 0)
  | st, rec0 :: rest =>
    match processEntries teacher now looseParse cid rec0.student_id st
        rec0.entries with
    | Except.error e => Except.error e
    | Except.ok (st1, n) =>
      match processRecs teacher now looseParse cid st1 rest with
      | Except.error e => Except.error e
      | Except.ok (st2, n2) => Except.ok (st2, n + n2)

/-- The response shape `{ ok: true, updated, month }`. -/
structure AttendanceResponse where
  ok : Bool
  updated : ℕ
  month : String
deriving DecidableEq, Repr

/-- `attendance.save`: reject a missing (or empty, both falsy) class id,
then walk every student record and every date-like key, find-or-create
the schedule row, upsert the attendance row, and return
`{ ok: true, updated, month }`. -/
def attendanceSave (st : Store) (classId : Option String)
    (recs : List AttendanceRec) (month : String) (teacher now : String)
    (looseParse : String → Option String) :
    Except String (Store × AttendanceResponse) :=
  match classId with
  | none => Except.error "Please create/select a class before saving."
  | some cid =>
    if cid == "" then
      Except.error "Please create/select a class before saving."
    else match processRecs teacher now looseParse cid st recs with
    | Except.error e => Except.error e
    | Except.ok (st1, n) =>
      Except.ok (st1, { ok := true, updated := n, month := month })


/-! ### Theorems: schedule find-or-create (C4) -/

/-- Number of `lesson_schedules` rows matching an exact
(class, student, date) triple. -/
def tripleCount (st : Store) (cid sid dt : String) : ℕ :=
  (st.lessonSchedules.filter fun r =>
    r.class_id == cid && r.student_id == sid && r.lesson_date == dt).length

/-- C4: starting from a store with at most one row for the triple,
materializing the same (class, student, date) twice in sequence succeeds,
the second call finds the row the first call ensured (same store, same
id back), and exactly one row for the triple remains. -/
theorem C4_find_or_create_idempotent (st : Store) (cid sid dt : String)
    (h : tripleCount st cid sid dt ≤ 1) :
    ∃ st1 id1, ensureSchedule st cid sid dt = Except.ok (st1, id1) ∧
      ensureSchedule st1 cid sid dt = Except.ok (st1, id1) ∧
      tripleCount st1 cid sid dt = 1 := by
  cases hl : st.lessonSchedules.filter fun r =>
      r.class_id == cid && r.student_id == sid && r.lesson_date == dt with
  | nil =>
    have hnew : ((st.lessonSchedules ++
        [({ id := st.nextId, class_id := cid, student_id := sid,
            lesson_date := dt, hourly_rate := none } : ScheduleRow)]).filter
          fun r =>
            r.class_id == cid && r.student_id == sid &&
            r.lesson_date == dt) =
        [({ id := st.nextId, class_id := cid, student_id := sid,
            lesson_date := dt, hourly_rate := none } : ScheduleRow)] := by
      rw [List.filter_append, hl]
      simp
    refine ⟨{ st with
        lessonSchedules := st.lessonSchedules ++
          [({ id := st.nextId, class_id := cid, student_id := sid,
              lesson_date := dt, hourly_rate := none } : ScheduleRow)],
        nextId := st.nextId + 1 }, st.nextId, ?_, ?_, ?_⟩
    · unfold ensureSchedule
      rw [hl]
    · unfold ensureSchedule
      rw [hnew]
    · unfold tripleCount
      rw [hnew]
      rfl
  | cons r rest =>
    cases rest with
    | nil =>
      refine ⟨st, r.id, ?_, ?_, ?_⟩
      · unfold ensureSchedule
        rw [hl]
      · unfold ensureSchedule
        rw [hl]
      · unfold tripleCount
        rw [hl]
        rfl
    | cons r2 rest2 =>
      exfalso
      unfold tripleCount at h
      rw [hl] at h
      simp at h

/-- Concrete store for the C4 and C5 witnesses: one unrelated schedule
row. -/
def stC4 : Store :=
  { classes := [], students := [],
    lessonSchedules := [⟨7, "other", "s9", "2024-03-01", none⟩],
    attendanceRecords := [], invoices := [], payments := [], nextId := 8 }

/-- Witness for C4 at a concrete store with no row for the triple yet. -/
theorem C4_witness :
    tripleCount stC4 "c1" "s1" "2024-03-04" ≤ 1 ∧
    ∃ st1 id1,
      ensureSchedule stC4 "c1" "s1" "2024-03-04" = Except.ok (st1, id1) ∧
      ensureSchedule st1 "c1" "s1" "2024-03-04" = Except.ok (st1, id1) ∧
      tripleCount st1 "c1" "s1" "2024-03-04" = 1 :=
  ⟨by decide,
    C4_find_or_create_idempotent stC4 "c1" "s1" "2024-03-04" (by decide)⟩

/-! ### Theorems: attendance upsert (C5) -/

/-- The `attendance_records` rows matching an
exact (lesson-schedule id, student id) key. -/
def attKeyRows (st : Store) (schedId : ℕ) (sid : String) : List AttRow :=
  st.attendanceRecords.filter fun a =>
    a.lesson_schedule_id == schedId && a.student_id == sid

/-- A finite sequence of `attendance.save` upserts on one
(lesson-schedule id, student id) key, applied in order; any step's
failure aborts the rest, as in the source. -/
def applyUpserts (teacher now : String) (schedId : ℕ) (sid : String) :
    Store → List Bool → Except String Store
  | st, [] => Except.ok st
  | st, w :: ws =>
    match upsertAttendance st schedId sid w teacher now with
    | Except.error e => Except.error e
    | Except.ok st1 => applyUpserts teacher now schedId sid st1 ws

/-- Mapping a row transformation that preserves a filter predicate
commutes with that filter. -/
theorem filter_map_of_pred_inv (g : AttRow → AttRow) (p : AttRow → Bool)
    (hp : ∀ b, p (g b) = p b) :
    ∀ l : List AttRow, (l.map g).filter p = (l.filter p).map g := by
  intro l
  induction l with
  | nil => rfl
  | cons b t ih =>
    rw [List.map_cons, List.filter_cons, List.filter_cons, hp b]
    cases hb : p b
    · simpa using ih
    · simpa using ih

/-- One upsert on a key with at most one existing row leaves exactly one
row for the key, carrying the written value. -/
theorem upsertAttendance_step (st : Store) (schedId : ℕ) (sid : String)
    (w : Bool) (teacher now : String)
    (h : (attKeyRows st schedId sid).length ≤ 1) :
    ∃ st1, upsertAttendance st schedId sid w teacher now = Except.ok st1 ∧
      (attKeyRows st1 schedId sid).length = 1 ∧
      ∀ a ∈ attKeyRows st1 schedId sid, a.attended = w := by
  cases hl : st.attendanceRecords.filter fun a =>
      a.lesson_schedule_id == schedId && a.student_id == sid with
  | nil =>
    have hnew : ((st.attendanceRecords ++
        [({ id := st.nextId, lesson_schedule_id := schedId,
            student_id := sid, attended := w, notes := none,
            recorded_at := now, recorded_by := teacher } : AttRow)]).filter
          fun a =>
            a.lesson_schedule_id == schedId && a.student_id == sid) =
        [({ id := st.nextId, lesson_schedule_id := schedId,
            student_id := sid, attended := w, notes := none,
            recorded_at := now, recorded_by := teacher } : AttRow)] := by
      rw [List.filter_append, hl]
      simp
    refine ⟨{ st with
        attendanceRecords := st.attendanceRecords ++
          [({ id := st.nextId, lesson_schedule_id := schedId,
              student_id := sid, attended := w, notes := none,
              recorded_at := now, recorded_by := teacher } : AttRow)],
        nextId := st.nextId + 1 }, ?_, ?_, ?_⟩
    · unfold upsertAttendance
      rw [hl]
    · unfold attKeyRows
      rw [hnew]
      rfl
    · intro a ha
      unfold attKeyRows at ha
      rw [hnew] at ha
      simp at ha
      rw [ha]
  | cons r rest =>
    cases rest with
    | nil =>
      have hg : ∀ b : AttRow,
          ((fun a : AttRow =>
              a.lesson_schedule_id == schedId && a.student_id == sid)
            ((fun b : AttRow =>
              if b.id == r.id then
                { b with attended := w, recorded_at := now, recorded_by := teacher }
              else b) b)) =
          ((fun a : AttRow =>
              a.lesson_schedule_id == schedId && a.student_id == sid) b) := by
        intro b
        by_cases hb : (b.id == r.id) = true <;> simp [hb]
      refine ⟨{ st with
          attendanceRecords := st.attendanceRecords.map fun b =>
            if b.id == r.id then
              { b with attended := w, recorded_at := now, recorded_by := teacher }
            else b }, ?_, ?_, ?_⟩
      · unfold upsertAttendance
        rw [hl]
      · unfold attKeyRows
        rw [filter_map_of_pred_inv _ _ hg, hl]
        rfl
      · intro a ha
        unfold attKeyRows at ha
        rw [filter_map_of_pred_inv _ _ hg, hl] at ha
        simp only [List.map_cons, List.map_nil, List.mem_singleton] at ha
        rw [ha]
        simp
    | cons r2 rest2 =>
      exfalso
      unfold attKeyRows at h
      rw [hl] at h
      simp at h

/-- C5: for every nonempty sequence of attendance upserts on one
(lesson-schedule id, student id) key, starting from a store with at most
one row for that key, the whole sequence succeeds, exactly one row for
the key remains, and its `attended` value is the last value written. -/
theorem C5_upserts_converge_to_last_write (teacher now : String)
    (schedId : ℕ) (sid : String) :
    ∀ (ws : List Bool) (st : Store),
      (attKeyRows st schedId sid).length ≤ 1 → ws ≠ [] →
      ∃ st1, applyUpserts teacher now schedId sid st ws = Except.ok st1 ∧
        (attKeyRows st1 schedId sid).length = 1 ∧
        ∀ a ∈ attKeyRows st1 schedId sid,
          ws.getLast? = some a.attended := by
  intro ws
  induction ws with
  | nil => intro st h hne; exact absurd rfl hne
  | cons w rest ih =>
    intro st h hne
    obtain ⟨st1, hok, hlen, hval⟩ :=
      upsertAttendance_step st schedId sid w teacher now h
    cases rest with
    | nil =>
      refine ⟨st1, ?_, hlen, ?_⟩
      · unfold applyUpserts
        rw [hok]
        rfl
      · intro a ha
        rw [hval a ha]
        rfl
    | cons w2 rest2 =>
      obtain ⟨st2, hok2, hlen2, hval2⟩ :=
        ih st1 (le_of_eq hlen) (by simp)
      refine ⟨st2, ?_, hlen2, ?_⟩
      · unfold applyUpserts
        rw [hok]
        exact hok2
      · intro a ha
        rw [List.getLast?_cons_cons]
        exact hval2 a ha

/-- Witness for C5: three toggles true, false, true on a fresh key end in
one row holding the last value written. -/
theorem C5_witness :
    (attKeyRows stC4 3 "s1").length ≤ 1 ∧ ([true, false, true] ≠ []) ∧
    ∃ st1,
      applyUpserts "t" "now" 3 "s1" stC4 [true, false, true] =
        Except.ok st1 ∧
      (attKeyRows st1 3 "s1").length = 1 ∧
      ∀ a ∈ attKeyRows st1 3 "s1",
        ([true, false, true] : List Bool).getLast? = some a.attended :=
  ⟨by decide, by simp,
    C5_upserts_converge_to_last_write "t" "now" 3 "s1" [true, false, true]
      stC4 (by decide) (by simp)⟩

/-! ### Theorems: attendance.save key handling (C10) -/

/-- The empty store. -/
def st0 : Store := ⟨[], [], [], [], [], [], 0⟩

/-- C10 (counterexample to the claim as stated): the key made of
"Jan", a TAB and "05" is matched by the code's regex (whose `[A-Za-z]{3}\s\d{2}`
alternative accepts any ECMAScript whitespace, not only a space), so a
save over it processes it as an attendance date and reports
`updated = 1`; the claim's pattern — three letters, a space, two digits —
rejects that key, so the claim would have it ignored. -/
theorem C10_counterexample_tab_key :
    dateKeyTest "Jan\t05" = true ∧
    claimDateKeyPattern "Jan\t05" = false ∧
    attendanceSave st0 (some "c1") [⟨"s1", [("Jan\t05", true)]⟩] "2024-01"
        "t" "now" (fun _ => some "2001-01-05") =
      Except.ok
        (⟨[], [], [⟨0, "c1", "s1", "2001-01-05", none⟩],
          [⟨1, 0, "s1", true, none, "now", "t"⟩], [], [], 2⟩,
        ⟨true, 1, "2024-01"⟩) :=
  ⟨by decide, by decide, by rfl⟩

/-- A successful run of the inner key loop counts exactly the keys
passing `dateKeyTest`. -/
theorem processEntries_ok_updated (teacher now : String)
    (lp : String → Option String) (cid sid : String) :
    ∀ (l : List (String × Bool)) (st st3 : Store) (n : ℕ),
      processEntries teacher now lp cid sid st l = Except.ok (st3, n) →
      n = l.countP fun e => dateKeyTest e.1 := by
  intro l
  induction l with
  | nil =>
    intro st st3 n h
    simp only [processEntries, Except.ok.injEq, Prod.mk.injEq] at h
    rw [← h.2]
    rfl
  | cons e rest ih =>
    obtain ⟨k, v⟩ := e
    intro st st3 n h
    by_cases hk : dateKeyTest k = true
    · cases hto : toISO lp k with
      | none => simp [processEntries, hk, hto] at h
      | some dt =>
        cases hes : ensureSchedule st cid sid dt with
        | error e2 => simp [processEntries, hk, hto, hes] at h
        | ok pr =>
          obtain ⟨st1, schedId⟩ := pr
          cases hup : upsertAttendance st1 schedId sid v teacher now with
          | error e2 => simp [processEntries, hk, hto, hes, hup] at h
          | ok st2 =>
            cases hrec : processEntries teacher now lp cid sid st2 rest with
            | error e2 => simp [processEntries, hk, hto, hes, hup, hrec] at h
            | ok pr2 =>
              obtain ⟨st4, n4⟩ := pr2
              simp only [processEntries, hk, if_true, hto, hes, hup, hrec,
                Except.ok.injEq, Prod.mk.injEq] at h
              rw [List.countP_cons]
              simp only [hk, if_pos]
              rw [← h.2, ih st2 st4 n4 hrec]
    · simp only [processEntries, if_neg hk] at h
      rw [List.countP_cons]
      simp only [hk]
      rw [ih st st3 n h]
      rfl

/-- A successful run of the record loop counts exactly the matching
(record, key) pairs. -/
theorem processRecs_ok_updated (teacher now : String)
    (lp : String → Option String) (cid : String) :
    ∀ (rs : List AttendanceRec) (st st2 : Store) (n : ℕ),
      processRecs teacher now lp cid st rs = Except.ok (st2, n) →
      n = (rs.map fun r => r.entries.countP fun e => dateKeyTest e.1).sum := by
  intro rs
  induction rs with
  | nil =>
    intro st st2 n h
    simp only [processRecs, Except.ok.injEq, Prod.mk.injEq] at h
    rw [← h.2]
    rfl
  | cons r rest ih =>
    intro st st2 n h
    cases hent : processEntries teacher now lp cid r.student_id st r.entries with
    | error e2 => simp [processRecs, hent] at h
    | ok pr =>
      obtain ⟨st1, n1⟩ := pr
      cases hrest : processRecs teacher now lp cid st1 rest with
      | error e2 => simp [processRecs, hent, hrest] at h
      | ok pr2 =>
        obtain ⟨st3, n2⟩ := pr2
        simp only [processRecs, hent, hrest, Except.ok.injEq,
          Prod.mk.injEq] at h
        rw [List.map_cons, List.sum_cons, ← h.2,
          processEntries_ok_updated teacher now lp cid r.student_id
            r.entries st st1 n1 hent,
          ih st1 st3 n2 hrest]

/-- C10 (amended): `attendance.save` treats a key of a student record as
an attendance date exactly when it matches `YYYY-MM-DD` or three letters
followed by an ECMAScript whitespace character (a space, but also tab and
the other members of the regex class) and two digits; all other keys
(such as `student_id` and `student_name`) are ignored, and on success the
result is `{ ok: true, updated: n, month }` with `n` the number of
matching (record, date key) pairs processed. -/
theorem C10_save_counts_date_keys (st : Store) (classId : Option String)
    (recs : List AttendanceRec) (month teacher now : String)
    (lp : String → Option String) (st1 : Store) (resp : AttendanceResponse)
    (h : attendanceSave st classId recs month teacher now lp =
      Except.ok (st1, resp)) :
    resp.ok = true ∧ resp.month = month ∧
    resp.updated =
      (recs.map fun r => r.entries.countP fun e => dateKeyTest e.1).sum := by
  cases classId with
  | none => simp [attendanceSave] at h
  | some cid =>
    by_cases hc : (cid == "") = true
    · simp [attendanceSave, hc] at h
    · cases hrun : processRecs teacher now lp cid st recs with
      | error e2 => simp [attendanceSave, hc, hrun] at h
      | ok pr =>
        obtain ⟨st2, n⟩ := pr
        simp only [attendanceSave, hc, hrun, Bool.false_eq_true, if_false,
          Except.ok.injEq, Prod.mk.injEq] at h
        rw [← h.2]
        refine ⟨rfl, rfl, ?_⟩
        exact processRecs_ok_updated teacher now lp cid recs st st2 n hrun

/-- Witness for C10 (amended) on a concrete payload mixing an ISO date
key, the `student_name` key and a malformed key. -/
theorem C10_witness :
    attendanceSave st0 (some "c1")
        [⟨"s1", [("student_name", false), ("2024-01-05", true), ("x", true)]⟩]
        "2024-01" "t" "now" (fun _ => none) =
      Except.ok
        (⟨[], [], [⟨0, "c1", "s1", "2024-01-05", none⟩],
          [⟨1, 0, "s1", true, none, "now", "t"⟩], [], [], 2⟩,
        ⟨true, 1, "2024-01"⟩) ∧
    ((⟨true, 1, "2024-01"⟩ : AttendanceResponse).ok = true ∧
      (⟨true, 1, "2024-01"⟩ : AttendanceResponse).month = "2024-01" ∧
      (⟨true, 1, "2024-01"⟩ : AttendanceResponse).updated =
        (([⟨"s1", [("student_name", false), ("2024-01-05", true), ("x", true)]⟩] :
            List AttendanceRec).map
          fun r => r.entries.countP fun e => dateKeyTest e.1).sum) :=
  ⟨by rfl,
    C10_save_counts_date_keys st0 (some "c1")
      [⟨"s1", [("student_name", false), ("2024-01-05", true), ("x", true)]⟩]
      "2024-01" "t" "now" (fun _ => none) _ _ (by rfl)⟩

/-! ### Payment ledger (`processPayment` / `doUndoLastPayment` in the
payment tracker) -/

/-- The invoice-status update statement:
`update({ status }).eq('id', invId)`. -/
def updateInvoiceStatus (invs : List InvoiceRow) (invId : String)
    (s : Status) : List InvoiceRow :=
  invs.map fun i => if i.id == invId then { i with status := s } else i

/-- `processPayment` from the payment tracker, as a transformer of the
store returning the (unchanged on failure) store and an error message on
failure:

* `paymentAmount` is `parseFloat` of the dialog input, `none` when not a
  finite number; `!isFinite(amount) || amount <= 0` rejects it before any
  remote call;
* the payment reference is the RPC result when available
  (`rpcRef`), else the local `PAY-year-random` fallback (`fallbackRef`);
* the payment row is inserted (`pid`, `payDate`, `createdAt` are the
  store-generated id and default column values), then the invoice status
  becomes `paid` when the cumulative paid sum covers the total, else
  `sent` when the prior status was `draft`, else stays unchanged. -/
def processPayment (st : Store) (sumPaid : List (String × ℚ))
    (dialogInvoice : InvoiceRow) (paymentAmount : Option ℚ)
    (method : String) (notes : Option String) (rpcRef : Option String)
    (fallbackRef : String) (pid payDate createdAt : String) :
    Store × Option String :=
  match paymentAmount with
  | none => (st, some "Invalid payment amount")
  | some amount =>
    if amount ≤ 0 then (st, some "Invalid payment amount")
    else
      let ref := rpcRef.getD fallbackRef
      let st1 := { st with
        payments := st.payments ++
          [({ id := pid, invoice_id := dialogInvoice.id,
              student_id := dialogInvoice.student_id, amount := amount,
              payment_method := method, payment_reference := ref,
              notes := notes, payment_date := payDate,
              created_at := createdAt } : PaymentRow)] }
      let newPaid := lookupOr0 sumPaid dialogInvoice.id + amount
      let newStatus :=
        if dialogInvoice.total_amount ≤ newPaid then Status.paid
        else if dialogInvoice.status == Status.draft then Status.sent
        else dialogInvoice.status
      ({ st1 with
          invoices :=
            updateInvoiceStatus st1.invoices dialogInvoice.id newStatus },
        none)

/-- Strict ordering of payments by the undo query's sort keys:
later `payment_date` first, ties by later `created_at`
(`order('payment_date', desc).order('created_at', desc)`). -/
def payKeyLt (p q : PaymentRow) : Bool :=
  strLtB p.payment_date q.payment_date ||
    (p.payment_date == q.payment_date && strLtB p.created_at q.created_at)

/-- The row returned by the undo query
`.eq('invoice_id', ...).order('payment_date', desc).order('created_at',
desc).limit(1).maybeSingle()`: a payment of the invoice that no other
payment of the invoice beats on (payment_date, created_at); `none` when
the invoice has no payments.  Ties beyond both sort keys are broken by
list position, as the store may. -/
def lastPaymentOf (ps : List PaymentRow) (invId : String) :
    Option PaymentRow :=
  (ps.filter fun p => p.invoice_id == invId).foldl
    (fun acc p =>
      match acc with
      | none => some p
      | some q => if payKeyLt q p then some p else some q)
    none

/-- `doUndoLastPayment` from the payment tracker: find the last payment
of the invoice, delete it by id, and recompute the status from the
cached paid sum minus the deleted amount — reverting `paid` to `sent`
when nothing remains paid (other statuses stay), else `paid` when the
remainder still covers the total, else `sent`. -/
def doUndoLastPayment (st : Store) (sumPaid : List (String × ℚ))
    (inv : InvoiceRow) : Store × Option String :=
  match lastPaymentOf st.payments inv.id with
  | none => (st, some "No payments found for this invoice")
  | some last =>
    let st1 := { st with
      payments := st.payments.filter fun p => !(p.id == last.id) }
    let paidAfter := lookupOr0 sumPaid inv.id - last.amount
    let newStatus :=
      if paidAfter ≤ 0 then
        (if inv.status == Status.paid then Status.sent else inv.status)
      else if inv.total_amount ≤ paidAfter then Status.paid
      else Status.sent
    ({ st1 with
        invoices := updateInvoiceStatus st1.invoices inv.id newStatus },
      none)

/-- Spec wording, C6: cumulative paid ≥ total → `paid`; else prior
`draft` → `sent`; else unchanged. -/
def specC6Status (cumulativePaid total : ℚ) (prior : Status) : Status :=
  if total ≤ cumulativePaid then Status.paid
  else if prior = Status.draft then Status.sent
  else prior

/-- Spec wording, C3 as claimed: remaining ≤ 0 and prior `paid` →
`sent`; else remaining ≥ total → `paid`; else `sent`. -/
def specC3Status (paidAfter total : ℚ) (prior : Status) : Status :=
  if paidAfter ≤ 0 ∧ prior = Status.paid then Status.sent
  else if total ≤ paidAfter then Status.paid
  else Status.sent

/-- The amended C3 recompute: when the remainder is ≤ 0 the status
reverts to `sent` only from `paid` and is otherwise unchanged; else
`paid` when the remainder covers the total; else `sent`. -/
def specC3AmendedStatus (paidAfter total : ℚ) (prior : Status) : Status :=
  if paidAfter ≤ 0 then
    (if prior = Status.paid then Status.sent else prior)
  else if total ≤ paidAfter then Status.paid
  else Status.sent

/-! ### Order lemmas for the undo query's sort keys -/

/-- The code-point order is irreflexive. -/
theorem chLt_irrefl : ∀ l : List Char, chLt l l = false := by
  intro l
  induction l with
  | nil => rfl
  | cons c cs ih =>
    unfold chLt
    rw [if_neg (lt_irrefl c.toNat), if_neg (lt_irrefl c.toNat)]
    exact ih

/-- The code-point order is transitive. -/
theorem chLt_trans :
    ∀ a b c : List Char, chLt a b = true → chLt b c = true →
      chLt a c = true := by
  intro a
  induction a with
  | nil =>
    intro b c hab hbc
    cases b with
    | nil => exact absurd hab (by simp [chLt])
    | cons d ds =>
      cases c with
      | nil => exact absurd hbc (by simp [chLt])
      | cons e es => simp [chLt]
  | cons x xs ih =>
    intro b c hab hbc
    cases b with
    | nil => exact absurd hab (by simp [chLt])
    | cons d ds =>
      cases c with
      | nil => exact absurd hbc (by simp [chLt])
      | cons e es =>
        unfold chLt at hab hbc ⊢
        by_cases h1 : x.toNat < d.toNat
        · by_cases h2 : d.toNat < e.toNat
          · rw [if_pos (lt_trans h1 h2)]
          · by_cases h3 : e.toNat < d.toNat
            · rw [if_neg h2, if_pos h3] at hbc
              exact absurd hbc (by simp)
            · have hde : d.toNat = e.toNat :=
                le_antisymm (not_lt.mp h3) (not_lt.mp h2)
              rw [if_pos (hde ▸ h1)]
        · by_cases h1b : d.toNat < x.toNat
          · rw [if_neg h1, if_pos h1b] at hab
            exact absurd hab (by simp)
          · have hxd : x.toNat = d.toNat :=
              le_antisymm (not_lt.mp h1b) (not_lt.mp h1)
            rw [if_neg h1, if_neg h1b] at hab
            by_cases h2 : d.toNat < e.toNat
            · rw [if_pos (hxd ▸ h2)]
            · by_cases h3 : e.toNat < d.toNat
              · rw [if_neg h2, if_pos h3] at hbc
                exact absurd hbc (by simp)
              · have hde : d.toNat = e.toNat :=
                  le_antisymm (not_lt.mp h3) (not_lt.mp h2)
                rw [if_neg h2, if_neg h3] at hbc
                have hxe : ¬ x.toNat < e.toNat := by
                  rw [hxd, hde]
                  exact lt_irrefl _
                have hex : ¬ e.toNat < x.toNat := by
                  rw [hxd, hde]
                  exact lt_irrefl _
                rw [if_neg hxe, if_neg hex]
                exact ih ds es hab hbc

/-- Two lists neither of which precedes the other are equal. -/
theorem chLt_connex :
    ∀ a b : List Char, chLt a b = false → chLt b a = false → a = b := by
  intro a
  induction a with
  | nil =>
    intro b h1 _
    cases b with
    | nil => rfl
    | cons d ds => exact absurd h1 (by simp [chLt])
  | cons x xs ih =>
    intro b h1 h2
    cases b with
    | nil => exact absurd h2 (by simp [chLt])
    | cons d ds =>
      unfold chLt at h1 h2
      by_cases hxd : x.toNat < d.toNat
      · rw [if_pos hxd] at h1
        exact absurd h1 (by simp)
      · by_cases hdx : d.toNat < x.toNat
        · rw [if_pos hdx] at h2
          exact absurd h2 (by simp)
        · rw [if_neg hxd, if_neg hdx] at h1
          rw [if_neg hdx, if_neg hxd] at h2
          have hv : x = d := by
            have hn : x.toNat = d.toNat :=
              le_antisymm (not_lt.mp hdx) (not_lt.mp hxd)
            exact Char.ext (UInt32.ext hn)
          rw [hv, ih ds h1 h2]

/-- String-order versions of the three lemmas above. -/
theorem strLtB_irrefl (s : String) : strLtB s s = false :=
  chLt_irrefl s.toList

/-- String code-point order is transitive. -/
theorem strLtB_trans (a b c : String) (h1 : strLtB a b = true)
    (h2 : strLtB b c = true) : strLtB a c = true :=
  chLt_trans a.toList b.toList c.toList h1 h2

/-- Strings neither of which precedes the other are equal. -/
theorem strLtB_connex (a b : String) (h1 : strLtB a b = false)
    (h2 : strLtB b a = false) : a = b := by
  have := chLt_connex a.toList b.toList h1 h2
  exact String.ext (by simpa [String.toList] using this)

/-- The payment sort order is irreflexive. -/
theorem payKeyLt_irrefl (p : PaymentRow) : payKeyLt p p = false := by
  simp [payKeyLt, strLtB_irrefl]

/-- The payment sort order is transitive. -/
theorem payKeyLt_trans (a b c : PaymentRow) (h1 : payKeyLt a b = true)
    (h2 : payKeyLt b c = true) : payKeyLt a c = true := by
  simp only [payKeyLt, Bool.or_eq_true, Bool.and_eq_true, beq_iff_eq] at h1 h2 ⊢
  rcases h1 with h1 | ⟨hd1, h1⟩
  · rcases h2 with h2 | ⟨hd2, h2⟩
    · exact Or.inl (strLtB_trans _ _ _ h1 h2)
    · rw [← hd2]
      exact Or.inl h1
  · rcases h2 with h2 | ⟨hd2, h2⟩
    · rw [hd1]
      exact Or.inl h2
    · exact Or.inr ⟨hd1.trans hd2, strLtB_trans _ _ _ h1 h2⟩

/-- Negative transitivity of the payment sort order: if neither `a`
beats `r` nor `p` beats `a`, then `p` does not beat `r`. -/
theorem payKeyLt_negtrans (r a p : PaymentRow)
    (h1 : payKeyLt r a = false) (h2 : payKeyLt a p = false) :
    payKeyLt r p = false := by
  by_contra hrp
  have hrp : payKeyLt r p = true := by
    cases hx : payKeyLt r p
    · exact absurd hx hrp
    · rfl
  simp only [payKeyLt, Bool.or_eq_false_iff, Bool.and_eq_false_iff,
    Bool.or_eq_true, Bool.and_eq_true, beq_iff_eq, beq_eq_false_iff_ne] at h1 h2 hrp
  obtain ⟨h1d, h1c⟩ := h1
  obtain ⟨h2d, h2c⟩ := h2
  rcases hrp with hrp | ⟨hdp, hrp⟩
  · by_cases had : strLtB a.payment_date r.payment_date = true
    · have : strLtB a.payment_date p.payment_date = true :=
        strLtB_trans _ _ _ had hrp
      rw [this] at h2d
      exact absurd h2d (by simp)
    · have hbad : strLtB a.payment_date r.payment_date = false := by
        cases hx : strLtB a.payment_date r.payment_date
        · rfl
        · exact absurd hx had
      have heq : r.payment_date = a.payment_date :=
        strLtB_connex _ _ h1d hbad
      rw [← heq] at h2d
      rw [hrp] at h2d
      exact absurd h2d (by simp)
  · have hbad : strLtB a.payment_date r.payment_date = false := by
      cases hx : strLtB a.payment_date r.payment_date
      · rfl
      · exfalso
        rw [hdp] at hx
        rw [hx] at h2d
        exact absurd h2d (by simp)
    have heq : r.payment_date = a.payment_date := strLtB_connex _ _ h1d hbad
    rcases h1c with h1c | h1c
    · exact absurd heq h1c
    · rcases h2c with h2c | h2c
      · exact absurd (heq.symm.trans hdp) h2c
      · by_cases hca : strLtB a.created_at r.created_at = true
        · have : strLtB a.created_at p.created_at = true :=
            strLtB_trans _ _ _ hca hrp
          rw [this] at h2c
          exact absurd h2c (by simp)
        · have hbca : strLtB a.created_at r.created_at = false := by
            cases hx : strLtB a.created_at r.created_at
            · rfl
            · exact absurd hx hca
          have heqc : r.created_at = a.created_at :=
            strLtB_connex _ _ h1c hbca
          rw [← heqc] at h2c
          rw [hrp] at h2c
          exact absurd h2c (by simp)

/-! ### Theorems: payment ledger -/

/-- Invariant of the `limit(1)` fold: starting from a candidate `a`, the
fold returns a row among `a` and the list that none of them beats. -/
theorem foldl_lastPayment_from_some :
    ∀ (t : List PaymentRow) (a : PaymentRow),
      ∃ r, t.foldl (fun acc p =>
          match acc with
          | none => some p
          | some q => if payKeyLt q p then some p else some q) (some a) =
            some r ∧
        (r = a ∨ r ∈ t) ∧ payKeyLt r a = false ∧
        ∀ q ∈ t, payKeyLt r q = false := by
  intro t
  induction t with
  | nil =>
    intro a
    exact ⟨a, rfl, Or.inl rfl, payKeyLt_irrefl a, by simp⟩
  | cons p t2 ih =>
    intro a
    by_cases h : payKeyLt a p = true
    · obtain ⟨r, hr, hmem, hrp, hmax⟩ := ih p
      refine ⟨r, ?_, ?_, ?_, ?_⟩
      · simpa [h] using hr
      · rcases hmem with rfl | hm
        · exact Or.inr (List.mem_cons_self r t2)
        · exact Or.inr (List.mem_cons_of_mem p hm)
      · cases hx : payKeyLt r a
        · rfl
        · exfalso
          have htr : payKeyLt r p = true := payKeyLt_trans r a p hx h
          rw [hrp] at htr
          exact absurd htr (by simp)
      · intro q hq
        rcases List.mem_cons.mp hq with rfl | hm
        · exact hrp
        · exact hmax q hm
    · have hb : payKeyLt a p = false := by
        cases hx : payKeyLt a p
        · rfl
        · exact absurd hx h
      obtain ⟨r, hr, hmem, hra, hmax⟩ := ih a
      refine ⟨r, ?_, ?_, hra, ?_⟩
      · simpa [hb] using hr
      · rcases hmem with rfl | hm
        · exact Or.inl rfl
        · exact Or.inr (List.mem_cons_of_mem p hm)
      · intro q hq
        rcases List.mem_cons.mp hq with rfl | hm
        · exact payKeyLt_negtrans r a q hra hb
        · exact hmax q hm

/-- When the invoice has payments, the undo query returns one of them
that no other payment of the invoice beats on the sort keys. -/
theorem lastPaymentOf_max (ps : List PaymentRow) (invId : String)
    (h : (ps.filter fun p => p.invoice_id == invId) ≠ []) :
    ∃ r, lastPaymentOf ps invId = some r ∧
      r ∈ ps.filter (fun p => p.invoice_id == invId) ∧
      ∀ q ∈ ps.filter (fun p => p.invoice_id == invId),
        payKeyLt r q = false := by
  unfold lastPaymentOf
  cases hl : ps.filter fun p => p.invoice_id == invId with
  | nil => exact absurd hl h
  | cons p t =>
    obtain ⟨r, hr, hmem, hrp, hmax⟩ := foldl_lastPayment_from_some t p
    refine ⟨r, ?_, ?_, ?_⟩
    · rw [List.foldl_cons]
      exact hr
    · rcases hmem with rfl | hm
      · exact List.mem_cons_self r t
      · exact List.mem_cons_of_mem p hm
    · intro q hq
      rcases List.mem_cons.mp hq with rfl | hm
      · exact hrp
      · exact hmax q hm

/-- The status expression computed by `doUndoLastPayment` equals the
amended C3 recompute. -/
theorem undoCodeStatus_eq_amended (paidAfter total : ℚ) (prior : Status) :
    (if paidAfter ≤ 0 then
        (if prior == Status.paid then Status.sent else prior)
      else if total ≤ paidAfter then Status.paid else Status.sent) =
    specC3AmendedStatus paidAfter total prior := by
  unfold specC3AmendedStatus
  by_cases h : paidAfter ≤ 0
  · rw [if_pos h, if_pos h]
    by_cases hp : prior = Status.paid
    · rw [hp]
      simp
    · have hb : (prior == Status.paid) = false := beq_eq_false_iff_ne.mpr hp
      rw [hb]
      simp [hp]
  · rw [if_neg h, if_neg h]

/-- C3 (amended): undoing the last payment of an invoice with at least
one payment deletes a payment no other payment of the invoice beats on
(payment_date, created_at) descending, and recomputes the status as: a
remainder ≤ 0 reverts `paid` to `sent` and leaves any other status
unchanged; else a remainder covering the total gives `paid`; else
`sent`. -/
theorem C3_undo_recompute_amended (st : Store)
    (sumPaid : List (String × ℚ)) (inv : InvoiceRow)
    (h : (st.payments.filter fun p => p.invoice_id == inv.id) ≠ []) :
    ∃ last, lastPaymentOf st.payments inv.id = some last ∧
      last ∈ st.payments.filter (fun p => p.invoice_id == inv.id) ∧
      (∀ q ∈ st.payments.filter (fun p => p.invoice_id == inv.id),
        payKeyLt last q = false) ∧
      doUndoLastPayment st sumPaid inv =
        ({ st with
            payments := st.payments.filter fun p => !(p.id == last.id),
            invoices := updateInvoiceStatus st.invoices inv.id
              (specC3AmendedStatus
                (lookupOr0 sumPaid inv.id - last.amount)
                inv.total_amount inv.status) }, none) := by
  obtain ⟨last, hlast, hmem, hmax⟩ := lastPaymentOf_max st.payments inv.id h
  refine ⟨last, hlast, hmem, hmax, ?_⟩
  unfold doUndoLastPayment
  rw [hlast, ← undoCodeStatus_eq_amended]

/-- Concrete invoice for the C3 counterexample: total 100 with prior
status `draft`. -/
def invC3 : InvoiceRow :=
  ⟨"i1", "INV-2024-0002", "s1", "Ann", 100, Status.draft, "2024-02-01"⟩

/-- Concrete store for the C3 counterexample: invoice `i1` with one
payment of 50 (status still `draft`, e.g. after a failed status
update). -/
def stC3 : Store :=
  { classes := [], students := [], lessonSchedules := [],
    attendanceRecords := [], invoices := [invC3],
    payments := [⟨"p1", "i1", "s1", 50, "cash", "R1", none,
      "2024-01-02", "t1"⟩],
    nextId := 0 }

/-- C3 (counterexample to the claim as stated): undoing the only payment
(50) of a draft invoice with total 100 leaves remaining paid 0; the code
keeps the prior status `draft` (it reverts to `sent` only from `paid`),
while the claim's if/else chain lands in its final else and demands
`sent`. -/
theorem C3_counterexample_draft_kept :
    (doUndoLastPayment stC3 [("i1", 50)] invC3).1.invoices.map (·.status) =
      [Status.draft] ∧
    (doUndoLastPayment stC3 [("i1", 50)] invC3).2 = none ∧
    specC3Status (lookupOr0 [("i1", 50)] "i1" - 50) invC3.total_amount
      invC3.status = Status.sent ∧
    Status.draft ≠ Status.sent := by
  have hlast : lastPaymentOf stC3.payments invC3.id =
      some ⟨"p1", "i1", "s1", 50, "cash", "R1", none,
        "2024-01-02", "t1"⟩ := rfl
  have hlook : lookupOr0 [("i1", 50)] "i1" = 50 := rfl
  have hsub : (50 : ℚ) - 50 ≤ 0 := by norm_num
  have hlast2 : lastPaymentOf
      [⟨"p1", "i1", "s1", 50, "cash", "R1", none, "2024-01-02", "t1"⟩]
      "i1" =
      some ⟨"p1", "i1", "s1", 50, "cash", "R1", none,
        "2024-01-02", "t1"⟩ := rfl
  refine ⟨?_, ?_, ?_, by decide⟩
  · norm_num [doUndoLastPayment, hlast2, invC3, stC3, lookupOr0,
      updateInvoiceStatus]
    decide
  · norm_num [doUndoLastPayment, hlast2, invC3, stC3]
  · rw [hlook]
    norm_num [specC3Status, invC3]

/-- Witness for C3 (amended) at the concrete draft-invoice store. -/
theorem C3_witness :
    (stC3.payments.filter fun p => p.invoice_id == invC3.id) ≠ [] ∧
    ∃ last, lastPaymentOf stC3.payments invC3.id = some last ∧
      last ∈ stC3.payments.filter (fun p => p.invoice_id == invC3.id) ∧
      (∀ q ∈ stC3.payments.filter (fun p => p.invoice_id == invC3.id),
        payKeyLt last q = false) ∧
      doUndoLastPayment stC3 [("i1", 50)] invC3 =
        ({ stC3 with
            payments := stC3.payments.filter fun p => !(p.id == last.id),
            invoices := updateInvoiceStatus stC3.invoices invC3.id
              (specC3AmendedStatus
                (lookupOr0 [("i1", 50)] invC3.id - last.amount)
                invC3.total_amount invC3.status) }, none) :=
  ⟨by decide, C3_undo_recompute_amended stC3 [("i1", 50)] invC3 (by decide)⟩

/-- The status expression computed by `processPayment` equals the C6
recompute as specified. -/
theorem payCodeStatus_eq_specC6 (newPaid total : ℚ) (prior : Status) :
    (if total ≤ newPaid then Status.paid
      else if prior == Status.draft then Status.sent else prior) =
    specC6Status newPaid total prior := by
  unfold specC6Status
  by_cases h : total ≤ newPaid
  · rw [if_pos h, if_pos h]
  · rw [if_neg h, if_neg h]
    by_cases hp : prior = Status.draft
    · rw [hp]
      simp
    · have hb : (prior == Status.draft) = false := beq_eq_false_iff_ne.mpr hp
      rw [hb]
      simp [hp]

/-- C6: recording a valid payment appends exactly one payment row and
sets the invoice status to `paid` when prior payments plus the new
amount cover the total, to `sent` when they do not and the prior status
was `draft`, and leaves it unchanged otherwise. -/
theorem C6_record_payment_status (st : Store)
    (sumPaid : List (String × ℚ)) (inv : InvoiceRow) (amount : ℚ)
    (method : String) (notes : Option String) (rpcRef : Option String)
    (fallbackRef pid payDate createdAt : String) (h : 0 < amount) :
    processPayment st sumPaid inv (some amount) method notes rpcRef
        fallbackRef pid payDate createdAt =
      ({ st with
          payments := st.payments ++
            [({ id := pid, invoice_id := inv.id,
                student_id := inv.student_id, amount := amount,
                payment_method := method,
                payment_reference := rpcRef.getD fallbackRef,
                notes := notes, payment_date := payDate,
                created_at := createdAt } : PaymentRow)],
          invoices := updateInvoiceStatus st.invoices inv.id
            (specC6Status (lookupOr0 sumPaid inv.id + amount)
              inv.total_amount inv.status) }, none) := by
  simp only [processPayment]
  rw [if_neg (not_le.mpr h), ← payCodeStatus_eq_specC6]

/-- Witness for C6: a payment of 60 against invoice `i1` (total 100,
prior payments 50, prior status `sent`) marks it `paid`. -/
theorem C6_witness :
    (0 : ℚ) < 60 ∧
    processPayment stC9 [("i1", 50)] invC9 (some 60) "cash" none
        (some "PAY-2024-0042") "PAY-2024-FALL" "p9" "2024-01-09" "t9" =
      ({ stC9 with
          payments := stC9.payments ++
            [({ id := "p9", invoice_id := invC9.id,
                student_id := invC9.student_id, amount := 60,
                payment_method := "cash",
                payment_reference :=
                  (some "PAY-2024-0042").getD "PAY-2024-FALL",
                notes := none, payment_date := "2024-01-09",
                created_at := "t9" } : PaymentRow)],
          invoices := updateInvoiceStatus stC9.invoices invC9.id
            (specC6Status (lookupOr0 [("i1", 50)] invC9.id + 60)
              invC9.total_amount invC9.status) }, none) :=
  ⟨by norm_num,
    C6_record_payment_status stC9 [("i1", 50)] invC9 60 "cash" none
      (some "PAY-2024-0042") "PAY-2024-FALL" "p9" "2024-01-09" "t9"
      (by norm_num)⟩

/-- C7: a payment amount that does not parse to a finite number, or is
not positive, is rejected before any write: the store comes back exactly
unchanged (no payment row, no reference handed to an insert, no invoice
status update) with the validation error. -/
theorem C7_invalid_amount_rejected (st : Store)
    (sumPaid : List (String × ℚ)) (inv : InvoiceRow)
    (amount? : Option ℚ) (method : String) (notes : Option String)
    (rpcRef : Option String) (fallbackRef pid payDate createdAt : String)
    (h : amount? = none ∨ ∃ a, amount? = some a ∧ a ≤ 0) :
    processPayment st sumPaid inv amount? method notes rpcRef fallbackRef
        pid payDate createdAt = (st, some "Invalid payment amount") := by
  rcases h with rfl | ⟨a, rfl, ha⟩
  · rfl
  · simp only [processPayment]
    rw [if_pos ha]

/-- Witness for C7: a zero amount is rejected and the concrete store is
returned untouched. -/
theorem C7_witness :
    ((some (0 : ℚ) = none) ∨
      (∃ a : ℚ, some (0 : ℚ) = some a ∧ a ≤ 0)) ∧
    processPayment stC9 [("i1", 50)] invC9 (some 0) "cash" none none
        "PAY-2024-FALL" "p9" "2024-01-09" "t9" =
      (stC9, some "Invalid payment amount") :=
  ⟨Or.inr ⟨0, rfl, le_refl 0⟩,
    C7_invalid_amount_rejected stC9 [("i1", 50)] invC9 (some 0) "cash"
      none none "PAY-2024-FALL" "p9" "2024-01-09" "t9"
      (Or.inr ⟨0, rfl, le_refl 0⟩)⟩

/-- Concrete store for the C8 witness: two schedule rows for class `c1`
(students `s1` twice and `s2`) and none for class `empty`. -/
def stC8 : Store :=
  { classes := [], students := [⟨"s1", "Ann", none⟩, ⟨"s2", "Bo", none⟩],
    lessonSchedules := [⟨0, "c1", "s1", "2024-01-05", none⟩,
      ⟨1, "c1", "s2", "2024-01-05", none⟩,
      ⟨2, "c1", "s1", "2024-01-12", none⟩],
    attendanceRecords := [], invoices := [], payments := [], nextId := 3 }

/-- Witness for C8 at the concrete store. -/
theorem C8_witness :
    (loadStudentsForClass stC8 "c1").1 = stC8 ∧
    (enrolledStudentIds stC8 "c1").Nodup ∧
    (∀ sid : String, sid ∈ enrolledStudentIds stC8 "c1" ↔
      ∃ r ∈ stC8.lessonSchedules,
        r.class_id = "c1" ∧ r.student_id = sid) ∧
    ((stC8.lessonSchedules.filter fun s => s.class_id == "c1") = [] →
      enrolledStudentIds stC8 "c1" = [] ∧
      (loadStudentsForClass stC8 "c1").2 = []) :=
  C8_enrolled_iff_has_schedule_row stC8 "c1"

end ClassSystem
